import Mathlib

/-!
Verification of the thrylos-solutions-hub repository against its
natural-language specification.

Part 1 embeds the OTP verification serverless function
(supabase/functions/pm-verify-otp/index.ts) as a pure state-passing
handler over an explicit database value.  Timestamps are modelled as
naturals (the code compares ISO-8601 strings, whose lexicographic order
agrees with chronological order).  The Supabase query chain
`.eq(...).order("created_at", desc).limit(1).single()` is modelled by
filtering the table, taking a row with maximal `created_at`, and failing
when no row remains; `.single()` on the `project_managers` lookup fails
unless exactly one row matches.  The random `crypto.randomUUID()` token
is a parameter of the handler.  Whether the fire-and-forget
`update({verified: true})` write persists is a further boolean parameter,
and the list of store operations the handler issues is part of its result.

Part 2 embeds the admin analytics aggregator
(src/components/admin/AnalyticsCharts.tsx).  A JavaScript
`Record<string, number>` built by repeated `counts[k] = (counts[k]||0)+1`
and read back with `Object.entries` is modelled as an insertion-ordered
association list.
-/

namespace PmVerifyOtp

/-- A row of the `otp_verifications` table. -/
structure OtpRecord where
  id : Nat
  email : String
  otp_code : String
  verified : Bool
  expires_at : Nat
  created_at : Nat
deriving DecidableEq, Repr

/-- A row of the `project_managers` table. -/
structure ProjectManager where
  id : String
  name : String
  email : String
  phone : Option String
  specialization : Option String
  is_available : Bool
deriving DecidableEq, Repr

/-- The data store visible to the verification function. -/
structure Db where
  otp_verifications : List OtpRecord
  project_managers : List ProjectManager
deriving DecidableEq, Repr

/-- The parsed JSON request body `{email, otp}`: each field may be absent
(`undefined`/`null`) or present as a string. -/
structure VerifyRequest where
  email : Option String
  otp : Option String
deriving DecidableEq, Repr

/-- JavaScript truthiness of `!x` for a string-or-absent value:
absent and the empty string are falsy. -/
def isFalsy : Option String → Bool
  | none => true
  | some s => s == ""

/-- The subset of PM fields returned on success (index.ts lines 73-80). -/
structure PmProfile where
  id : String
  name : String
  email : String
  phone : Option String
  specialization : Option String
  is_available : Bool
deriving DecidableEq, Repr

/-- A response body: either `{error: msg}` or the success shape
`{success, message, pm, sessionToken}`. -/
inductive RespBody where
  | errorMsg : String → RespBody
  | ok : Bool → String → PmProfile → String → RespBody
deriving DecidableEq, Repr

/-- An HTTP response: status code and JSON body. -/
structure Response where
  status : Nat
  body : RespBody
deriving DecidableEq, Repr

/-- A data-store operation issued by the handler, in order. -/
inductive DbOp where
  | selectOtp : String → String → DbOp
  | updateVerified : Nat → DbOp
  | selectPm : String → DbOp
deriving DecidableEq, Repr

/-- Result of one handler run: the response, the post-state of the store,
and the trace of store operations issued. -/
structure HandlerResult where
  response : Response
  db : Db
  ops : List DbOp
deriving DecidableEq, Repr

/-- The row filter of the OTP lookup query (index.ts lines 31-36):
matching email, matching code, `verified = false`, `expires_at > now`. -/
def otpMatches (email otp : String) (now : Nat) (r : OtpRecord) : Bool :=
  r.email == email && r.otp_code == otp && r.verified == false &&
    decide (now < r.expires_at)

/-- `.order("created_at", {ascending: false}).limit(1).single()` over a
filtered row list: a row with maximal `created_at` when one exists. -/
def newestFirst : List OtpRecord → Option OtpRecord
  | [] => none
  | r :: rs =>
    match newestFirst rs with
    | none => some r
    | some b => if b.created_at > r.created_at then some b else some r

/-- The whole OTP lookup query (index.ts lines 30-39). -/
def otpLookup (db : Db) (email otp : String) (now : Nat) : Option OtpRecord :=
  newestFirst (db.otp_verifications.filter (otpMatches email otp now))

/-- `.eq("email", email).single()` on `project_managers` (lines 55-59):
succeeds only when exactly one row has that email. -/
def pmSingle (db : Db) (email : String) : Option ProjectManager :=
  match db.project_managers.filter (fun p => p.email == email) with
  | [p] => some p
  | _ => none

/-- `update({verified: true}).eq("id", otpData.id)` (lines 49-52). -/
def markVerified (db : Db) (id : Nat) : Db :=
  { db with
    otp_verifications := db.otp_verifications.map fun r =>
      if r.id == id then { r with verified := true } else r }

/-- The serve handler of pm-verify-otp (index.ts lines 12-87), for a
request whose body parsed.  `token` is the value `crypto.randomUUID()`
produced; `persist` says whether the un-awaited-for-errors verified-flag
write actually took effect in the store. -/
def verifyOtp (db : Db) (req : VerifyRequest) (now : Nat) (token : String)
    (persist : Bool) : HandlerResult :=
  if isFalsy req.email || isFalsy req.otp then
    ⟨⟨400, .errorMsg "Email and OTP are required"⟩, db, []⟩
  else
    let email := req.email.getD ""
    let otp := req.otp.getD ""
    match otpLookup db email otp now with
    | none =>
        ⟨⟨400, .errorMsg "Invalid or expired OTP"⟩, db, [.selectOtp email otp]⟩
    | some otpData =>
        let db1 := if persist then markVerified db otpData.id else db
        match pmSingle db1 email with
        | none =>
            ⟨⟨404, .errorMsg "Project manager not found"⟩, db1,
              [.selectOtp email otp, .updateVerified otpData.id, .selectPm email]⟩
        | some pm =>
            ⟨⟨200, .ok true "Login successful"
                ⟨pm.id, pm.name, pm.email, pm.phone, pm.specialization,
                  pm.is_available⟩ token⟩, db1,
              [.selectOtp email otp, .updateVerified otpData.id, .selectPm email]⟩

end PmVerifyOtp

namespace Analytics

/-- The request shape consumed by AnalyticsCharts.tsx. -/
structure ServiceRequest where
  id : String
  title : String
  status : String
  priority : String
  service_type : Option String
  created_at : String
  assigned_pm_id : Option String
deriving DecidableEq, Repr

/-- The PM shape consumed by AnalyticsCharts.tsx. -/
structure ProjectManager where
  id : String
  name : String
  is_available : Bool
deriving DecidableEq, Repr

/-- `counts[k] = (counts[k] || 0) + 1` on an insertion-ordered record:
increment the first entry with key `k`, appending `(k, 1)` when absent. -/
def bump : List (String × Nat) → String → List (String × Nat)
  | [], k => [(k, 1)]
  | (k', v) :: rest, k =>
    if k' = k then (k', v + 1) :: rest else (k', v) :: bump rest k

/-- `rec[k] = v` on an insertion-ordered record: overwrite the first entry
with key `k`, appending `(k, v)` when absent. -/
def setKey : List (String × Nat) → String → Nat → List (String × Nat)
  | [], k, v => [(k, v)]
  | (k', v') :: rest, k, v =>
    if k' = k then (k', v) :: rest else (k', v') :: setKey rest k v

/-- `rec[k] || 0`: the value at key `k`, zero when absent. -/
def getKey : List (String × Nat) → String → Nat
  | [], _ => 0
  | (k', v) :: rest, k => if k' = k then v else getKey rest k

/-- A JavaScript word character, as matched by the regex class `\w`. -/
def isWordChar (c : Char) : Bool :=
  c.isAlphanum || c = '_'

/-- `.replace(/\b\w/g, c => c.toUpperCase())` over a character list:
uppercase every word character not preceded by a word character.
`prevWord` says whether the previous character was a word character. -/
def titleWordChars : List Char → Bool → List Char
  | [], _ => []
  | c :: cs, prevWord =>
    (if !prevWord && isWordChar c then c.toUpper else c) ::
      titleWordChars cs (isWordChar c)

/-- The humanized status label (AnalyticsCharts.tsx line 44):
`status.replace(/_/g, ' ').replace(/\b\w/g, c => c.toUpperCase())`. -/
def humanizeStatus (s : String) : String :=
  String.mk (titleWordChars (s.data.map fun c => if c = '_' then ' ' else c) false)

/-- The `statusDistribution` memo (AnalyticsCharts.tsx lines 41-48):
count requests by humanized status label, in key insertion order. -/
def statusDistribution (requests : List ServiceRequest) : List (String × Nat) :=
  requests.foldl (fun counts r => bump counts (humanizeStatus r.status)) []

/-- The `requestTrends` memo (lines 30-38).  The bucket key
`date.toLocaleString(..., {month: 'short'}) + ' ' + date.getFullYear()`
depends on the runtime locale, so the key function on the raw
`created_at` string is a parameter; `.slice(-6)` keeps the last six
entries in insertion order. -/
def requestTrends (dateKey : String → String)
    (requests : List ServiceRequest) : List (String × Nat) :=
  let months := requests.foldl (fun acc r => bump acc (dateKey r.created_at)) []
  months.drop (months.length - 6)

/-- The seeding loop of `pmWorkload` (line 53):
`projectManagers.forEach(pm => { workload[pm.name] = 0; })`. -/
def seedZero (projectManagers : List ProjectManager) : List (String × Nat) :=
  projectManagers.foldl (fun acc pm => setKey acc pm.name 0) []

/-- One iteration of the request loop of `pmWorkload` (lines 54-59): skip
requests whose `assigned_pm_id` is falsy (absent or empty), find the
first PM with that id, and increment the entry under that PM's name. -/
def workloadStep (projectManagers : List ProjectManager)
    (acc : List (String × Nat)) (r : ServiceRequest) : List (String × Nat) :=
  match r.assigned_pm_id with
  | none => acc
  | some pid =>
    if pid = "" then acc
    else
      match projectManagers.find? (fun p => p.id == pid) with
      | none => acc
      | some pm => setKey acc pm.name (getKey acc pm.name + 1)

/-- The `pmWorkload` memo (lines 51-61): seed every PM name at zero, then
count assigned requests under the assignee's name. -/
def pmWorkload (requests : List ServiceRequest)
    (projectManagers : List ProjectManager) : List (String × Nat) :=
  requests.foldl (workloadStep projectManagers) (seedZero projectManagers)

/-- Stable insertion of one entry into a value-descending list, matching
`sort((a, b) => b[1] - a[1])`: earlier entries with an equal value stay
in front. -/
def insertByValueDesc (p : String × Nat) :
    List (String × Nat) → List (String × Nat)
  | [] => [p]
  | q :: rest =>
    if p.2 ≤ q.2 then q :: insertByValueDesc p rest else p :: q :: rest

/-- Stable sort by value descending. -/
def sortByValueDesc : List (String × Nat) → List (String × Nat)
  | [] => []
  | p :: rest => insertByValueDesc p (sortByValueDesc rest)

/-- The `popularServices` memo (lines 64-74): count by
`service_type || 'Unspecified'`, sort by count descending, keep six. -/
def popularServices (requests : List ServiceRequest) : List (String × Nat) :=
  let counts := requests.foldl
    (fun acc r =>
      bump acc (match r.service_type with
        | none => "Unspecified"
        | some t => if t = "" then "Unspecified" else t))
    []
  (sortByValueDesc counts).take 6

/-- The keys of a list, each at its first appearance, in order. -/
def firstSeen : List String → List String
  | [] => []
  | k :: ks => k :: (firstSeen ks).filter (fun x => x ≠ k)

/-- Reference description of a status distribution, following the spec's
words: one bucket per distinct key in order of first appearance, holding
that key's number of occurrences. -/
def distByFirstAppearance (ks : List String) : List (String × Nat) :=
  (firstSeen ks).map fun k => (k, ks.count k)

/-- The total of the counts held in a distribution. -/
def sumVals (l : List (String × Nat)) : Nat :=
  (l.map Prod.snd).sum


end Analytics

namespace PmVerifyOtp

lemma otpMatches_iff (email otp : String) (now : Nat) (r : OtpRecord) :
    otpMatches email otp now r = true ↔
      r.email = email ∧ r.otp_code = otp ∧ r.verified = false ∧
        now < r.expires_at := by
  simp [otpMatches, and_assoc]

lemma newestFirst_spec (l : List OtpRecord) :
    (l = [] ∧ newestFirst l = none) ∨
    ∃ m, newestFirst l = some m ∧ m ∈ l ∧
      ∀ x ∈ l, x.created_at ≤ m.created_at := by
  induction l with
  | nil => exact Or.inl ⟨rfl, rfl⟩
  | cons r rs ih =>
    right
    rcases ih with ⟨hnil, hnone⟩ | ⟨b, hb, hbmem, hbmax⟩
    · refine ⟨r, ?_, List.mem_cons_self r rs, ?_⟩
      · simp only [newestFirst, hnone]
      · intro x hx
        rcases List.mem_cons.mp hx with rfl | hx'
        · exact le_refl _
        · rw [hnil] at hx'; simp at hx'
    · by_cases hgt : b.created_at > r.created_at
      · refine ⟨b, ?_, List.mem_cons_of_mem _ hbmem, ?_⟩
        · simp only [newestFirst, hb, if_pos hgt]
        · intro x hx
          rcases List.mem_cons.mp hx with rfl | hx'
          · exact le_of_lt hgt
          · exact hbmax x hx'
      · refine ⟨r, ?_, List.mem_cons_self r rs, ?_⟩
        · simp only [newestFirst, hb, if_neg hgt]
        · intro x hx
          rcases List.mem_cons.mp hx with rfl | hx'
          · exact le_refl _
          · exact le_trans (hbmax x hx') (Nat.le_of_not_lt hgt)

lemma newestFirst_mem {l : List OtpRecord} {m : OtpRecord}
    (h : newestFirst l = some m) : m ∈ l := by
  rcases newestFirst_spec l with ⟨_, hnone⟩ | ⟨b, hb, hbmem, _⟩
  · rw [hnone] at h; cases h
  · rw [hb] at h; exact (Option.some_inj.mp h) ▸ hbmem

lemma newestFirst_max {l : List OtpRecord} {m : OtpRecord}
    (h : newestFirst l = some m) :
    ∀ x ∈ l, x.created_at ≤ m.created_at := by
  rcases newestFirst_spec l with ⟨_, hnone⟩ | ⟨b, hb, _, hbmax⟩
  · rw [hnone] at h; cases h
  · rw [hb] at h; exact (Option.some_inj.mp h) ▸ hbmax

lemma newestFirst_ne_nil {l : List OtpRecord} (h : l ≠ []) :
    ∃ m, newestFirst l = some m := by
  rcases newestFirst_spec l with ⟨hnil, _⟩ | ⟨b, hb, _, _⟩
  · exact absurd hnil h
  · exact ⟨b, hb⟩

lemma otpLookup_some {db : Db} {e c : String} {now : Nat} {m : OtpRecord}
    (h : otpLookup db e c now = some m) :
    m ∈ db.otp_verifications ∧ m.email = e ∧ m.otp_code = c ∧
      m.verified = false ∧ now < m.expires_at := by
  have hm := newestFirst_mem h
  have := List.mem_filter.mp hm
  exact ⟨this.1, (otpMatches_iff e c now m).mp this.2⟩

lemma otpLookup_exists {db : Db} {e c : String} {now : Nat}
    (h : ∃ r ∈ db.otp_verifications,
      r.email = e ∧ r.otp_code = c ∧ r.verified = false ∧ now < r.expires_at) :
    ∃ m, otpLookup db e c now = some m := by
  obtain ⟨r, hr, hp⟩ := h
  apply newestFirst_ne_nil
  intro hnil
  have : r ∈ db.otp_verifications.filter (otpMatches e c now) :=
    List.mem_filter.mpr ⟨hr, (otpMatches_iff e c now r).mpr hp⟩
  rw [hnil] at this
  simp at this

lemma otpLookup_max {db : Db} {e c : String} {now : Nat} {m : OtpRecord}
    (h : otpLookup db e c now = some m) :
    ∀ x ∈ db.otp_verifications,
      x.email = e → x.otp_code = c → x.verified = false → now < x.expires_at →
        x.created_at ≤ m.created_at := by
  intro x hx h1 h2 h3 h4
  exact newestFirst_max h x
    (List.mem_filter.mpr ⟨hx, (otpMatches_iff e c now x).mpr ⟨h1, h2, h3, h4⟩⟩)

lemma markVerified_project_managers (db : Db) (id : Nat) :
    (markVerified db id).project_managers = db.project_managers := rfl

lemma pmSingle_markVerified (db : Db) (id : Nat) (e : String) :
    pmSingle (markVerified db id) e = pmSingle db e := rfl

lemma isFalsy_some_ne {s : String} (h : s ≠ "") : isFalsy (some s) = false := by
  simp [isFalsy, h]

lemma isFalsy_false_iff {o : Option String} :
    isFalsy o = false ↔ ∃ s, o = some s ∧ s ≠ "" := by
  cases o <;> simp [isFalsy]

lemma pmSingle_persist (db : Db) (b : Bool) (id : Nat) (e : String) :
    pmSingle (if b then markVerified db id else db) e = pmSingle db e := by
  cases b <;> simp [pmSingle_markVerified]

lemma verifyOtp_bad_input (db : Db) (req : VerifyRequest) (now : Nat)
    (token : String) (persist : Bool)
    (h : (isFalsy req.email || isFalsy req.otp) = true) :
    verifyOtp db req now token persist =
      ⟨⟨400, .errorMsg "Email and OTP are required"⟩, db, []⟩ := by
  rw [verifyOtp]
  simp [h]

lemma verifyOtp_lookup_none (db : Db) (req : VerifyRequest) (now : Nat)
    (token : String) (persist : Bool) (e c : String)
    (he : req.email = some e) (he' : e ≠ "")
    (hc : req.otp = some c) (hc' : c ≠ "")
    (hl : otpLookup db e c now = none) :
    verifyOtp db req now token persist =
      ⟨⟨400, .errorMsg "Invalid or expired OTP"⟩, db, [.selectOtp e c]⟩ := by
  rw [verifyOtp, he, hc, isFalsy_some_ne he', isFalsy_some_ne hc']
  simp only [Bool.or_self, Bool.false_eq_true, if_false, Option.getD_some]
  rw [hl]

lemma verifyOtp_pm_none (db : Db) (req : VerifyRequest) (now : Nat)
    (token : String) (persist : Bool) (e c : String) (m : OtpRecord)
    (he : req.email = some e) (he' : e ≠ "")
    (hc : req.otp = some c) (hc' : c ≠ "")
    (hl : otpLookup db e c now = some m) (hp : pmSingle db e = none) :
    verifyOtp db req now token persist =
      ⟨⟨404, .errorMsg "Project manager not found"⟩,
        if persist then markVerified db m.id else db,
        [.selectOtp e c, .updateVerified m.id, .selectPm e]⟩ := by
  rw [verifyOtp, he, hc, isFalsy_some_ne he', isFalsy_some_ne hc']
  simp [hl, pmSingle_persist, hp]

lemma verifyOtp_pm_some (db : Db) (req : VerifyRequest) (now : Nat)
    (token : String) (persist : Bool) (e c : String) (m : OtpRecord)
    (pm : ProjectManager)
    (he : req.email = some e) (he' : e ≠ "")
    (hc : req.otp = some c) (hc' : c ≠ "")
    (hl : otpLookup db e c now = some m) (hp : pmSingle db e = some pm) :
    verifyOtp db req now token persist =
      ⟨⟨200, .ok true "Login successful"
          ⟨pm.id, pm.name, pm.email, pm.phone, pm.specialization,
            pm.is_available⟩ token⟩,
        if persist then markVerified db m.id else db,
        [.selectOtp e c, .updateVerified m.id, .selectPm e]⟩ := by
  rw [verifyOtp, he, hc, isFalsy_some_ne he', isFalsy_some_ne hc']
  simp [hl, pmSingle_persist, hp]

lemma mem_markVerified {db : Db} {m : OtpRecord}
    (hm : m ∈ db.otp_verifications) :
    { m with verified := true } ∈ (markVerified db m.id).otp_verifications := by
  refine List.mem_map.mpr ⟨m, hm, ?_⟩
  simp

lemma mem_markVerified_other {db : Db} {x : OtpRecord} (id : Nat)
    (hx : x ∈ db.otp_verifications) (hid : x.id ≠ id) :
    x ∈ (markVerified db id).otp_verifications := by
  refine List.mem_map.mpr ⟨x, hx, ?_⟩
  simp [hid]

/-- C5: a request with missing or empty email or otp is answered
400 `{error: "Email and OTP are required"}`, the store is untouched and
no store operation is issued. -/
theorem verify_otp_missing_input (db : Db) (req : VerifyRequest) (now : Nat)
    (token : String) (persist : Bool)
    (h : isFalsy req.email = true ∨ isFalsy req.otp = true) :
    verifyOtp db req now token persist =
      ⟨⟨400, .errorMsg "Email and OTP are required"⟩, db, []⟩ := by
  rw [verifyOtp]
  rcases h with h | h <;> simp [h]

/-- C5 witness: the handler at a concrete empty-otp request. -/
theorem verify_otp_missing_input_witness :
    verifyOtp ⟨[], []⟩ ⟨some "a@b", some ""⟩ 7 "tok" true =
      ⟨⟨400, .errorMsg "Email and OTP are required"⟩, ⟨[], []⟩, []⟩ :=
  verify_otp_missing_input ⟨[], []⟩ ⟨some "a@b", some ""⟩ 7 "tok" true
    (Or.inr (by decide))

/-- C2: when no stored OTP record simultaneously matches the email and
code, is unverified and is unexpired — whether the code is wrong,
expired, already used, or never sent — the response is always exactly
400 `{error: "Invalid or expired OTP"}`, so no cause is distinguishable
by the caller, and the store is unchanged. -/
theorem verify_otp_invalid_or_expired (db : Db) (req : VerifyRequest)
    (now : Nat) (token : String) (persist : Bool) (e c : String)
    (he : req.email = some e) (he' : e ≠ "")
    (hc : req.otp = some c) (hc' : c ≠ "")
    (hno : ∀ r ∈ db.otp_verifications,
      ¬(r.email = e ∧ r.otp_code = c ∧ r.verified = false ∧
          now < r.expires_at)) :
    verifyOtp db req now token persist =
      ⟨⟨400, .errorMsg "Invalid or expired OTP"⟩, db, [.selectOtp e c]⟩ := by
  have hlookup : otpLookup db e c now = none := by
    rw [otpLookup, List.filter_eq_nil_iff.mpr, newestFirst]
    intro r hr
    rw [otpMatches_iff]
    exact hno r hr
  rw [verifyOtp]
  rw [he, hc, isFalsy_some_ne he', isFalsy_some_ne hc']
  simp only [Bool.or_self, Bool.false_eq_true, if_false, Option.getD_some]
  rw [hlookup]

/-- C6: the verified-flag write is fire-and-forget — the response is the
same whether or not the write persists — and on every input the handler
either leaves the store unchanged or performs exactly the single
mark-verified mutation on the looked-up record. -/
theorem verify_otp_update_fire_and_forget (db : Db) (req : VerifyRequest)
    (now : Nat) (token : String) :
    (verifyOtp db req now token true).response =
        (verifyOtp db req now token false).response ∧
    ∀ persist : Bool,
      (verifyOtp db req now token persist).db = db ∨
      ∃ m, otpLookup db (req.email.getD "") (req.otp.getD "") now = some m ∧
        (verifyOtp db req now token persist).db = markVerified db m.id := by
  by_cases hv : (isFalsy req.email || isFalsy req.otp) = true
  · refine ⟨?_, fun persist => Or.inl ?_⟩
    · rw [verifyOtp_bad_input db req now token true hv,
        verifyOtp_bad_input db req now token false hv]
    · rw [verifyOtp_bad_input db req now token persist hv]
  · rw [Bool.not_eq_true, Bool.or_eq_false_iff] at hv
    obtain ⟨e, he, he'⟩ := isFalsy_false_iff.mp hv.1
    obtain ⟨c, hc, hc'⟩ := isFalsy_false_iff.mp hv.2
    have hgd : req.email.getD "" = e := by rw [he]; rfl
    have hgc : req.otp.getD "" = c := by rw [hc]; rfl
    cases hl : otpLookup db e c now with
    | none =>
      refine ⟨?_, fun persist => Or.inl ?_⟩
      · rw [verifyOtp_lookup_none db req now token true e c he he' hc hc' hl,
          verifyOtp_lookup_none db req now token false e c he he' hc hc' hl]
      · rw [verifyOtp_lookup_none db req now token persist e c he he' hc hc' hl]
    | some m =>
      have hdb : ∀ persist : Bool, (verifyOtp db req now token persist).db =
          if persist then markVerified db m.id else db := by
        intro persist
        cases hp : pmSingle db e with
        | none =>
          rw [verifyOtp_pm_none db req now token persist e c m he he' hc hc' hl hp]
        | some pm =>
          rw [verifyOtp_pm_some db req now token persist e c m pm he he' hc hc' hl hp]
      have hresp : ∀ persist : Bool,
          (verifyOtp db req now token persist).response =
            match pmSingle db e with
            | none => ⟨404, .errorMsg "Project manager not found"⟩
            | some pm =>
              ⟨200, .ok true "Login successful"
                ⟨pm.id, pm.name, pm.email, pm.phone, pm.specialization,
                  pm.is_available⟩ token⟩ := by
        intro persist
        cases hp : pmSingle db e with
        | none =>
          rw [verifyOtp_pm_none db req now token persist e c m he he' hc hc' hl hp]
        | some pm =>
          rw [verifyOtp_pm_some db req now token persist e c m pm he he' hc hc' hl hp]
      refine ⟨by rw [hresp true, hresp false], fun persist => ?_⟩
      cases persist
      · exact Or.inl (by rw [hdb false]; simp)
      · exact Or.inr ⟨m, by rw [hgd, hgc]; exact hl, by rw [hdb true]; simp⟩

/-- C1: a request carrying a non-empty email and code for which an
unverified, unexpired matching OTP record is stored and for which the
store holds the PM row with that email is answered 200 with
`success: true`, message "Login successful", the PM's public fields and
the freshly generated session token; the looked-up OTP record is marked
verified in the resulting store. -/
theorem verify_otp_success_path (db : Db) (req : VerifyRequest) (now : Nat)
    (token : String) (e c : String) (pm : ProjectManager)
    (he : req.email = some e) (he' : e ≠ "")
    (hc : req.otp = some c) (hc' : c ≠ "")
    (hmatch : ∃ r ∈ db.otp_verifications,
      r.email = e ∧ r.otp_code = c ∧ r.verified = false ∧ now < r.expires_at)
    (hpm : db.project_managers.filter (fun p => p.email == e) = [pm]) :
    (verifyOtp db req now token true).response =
      ⟨200, .ok true "Login successful"
        ⟨pm.id, pm.name, pm.email, pm.phone, pm.specialization,
          pm.is_available⟩ token⟩ ∧
    ∃ m ∈ db.otp_verifications,
      m.email = e ∧ m.otp_code = c ∧ m.verified = false ∧ now < m.expires_at ∧
      { m with verified := true } ∈
        (verifyOtp db req now token true).db.otp_verifications := by
  obtain ⟨m, hl⟩ := otpLookup_exists hmatch
  obtain ⟨hmmem, hme, hmc, hmv, hmex⟩ := otpLookup_some hl
  have hp : pmSingle db e = some pm := by rw [pmSingle, hpm]
  rw [verifyOtp_pm_some db req now token true e c m pm he he' hc hc' hl hp]
  exact ⟨rfl, m, hmmem, hme, hmc, hmv, hmex, mem_markVerified hmmem⟩

/-- C1 witness: a concrete store with one live OTP record and the
matching PM row. -/
theorem verify_otp_success_path_witness :
    (verifyOtp ⟨[⟨1, "a@b", "123456", false, 100, 10⟩],
          [⟨"p1", "Alice", "a@b", some "99", some "web", true⟩]⟩
        ⟨some "a@b", some "123456"⟩ 50 "tok" true).response =
      ⟨200, .ok true "Login successful"
        ⟨"p1", "Alice", "a@b", some "99", some "web", true⟩ "tok"⟩ ∧
    ∃ m ∈ ([⟨1, "a@b", "123456", false, 100, 10⟩] : List OtpRecord),
      m.email = "a@b" ∧ m.otp_code = "123456" ∧ m.verified = false ∧
      50 < m.expires_at ∧
      { m with verified := true } ∈
        (verifyOtp ⟨[⟨1, "a@b", "123456", false, 100, 10⟩],
            [⟨"p1", "Alice", "a@b", some "99", some "web", true⟩]⟩
          ⟨some "a@b", some "123456"⟩ 50 "tok" true).db.otp_verifications :=
  verify_otp_success_path _ _ 50 "tok" "a@b" "123456"
    ⟨"p1", "Alice", "a@b", some "99", some "web", true⟩
    rfl (by decide) rfl (by decide) (by decide) (by decide)

/-- C4: with a live matching OTP record but no PM row for the email, the
response is 404 `{error: "Project manager not found"}`, yet the OTP
record is still consumed — the mark-verified write is issued before the
PM lookup, as the operation trace shows, and the resulting store holds
the record with `verified = true`. -/
theorem verify_otp_pm_missing_consumes_otp (db : Db) (req : VerifyRequest)
    (now : Nat) (token : String) (e c : String)
    (he : req.email = some e) (he' : e ≠ "")
    (hc : req.otp = some c) (hc' : c ≠ "")
    (hmatch : ∃ r ∈ db.otp_verifications,
      r.email = e ∧ r.otp_code = c ∧ r.verified = false ∧ now < r.expires_at)
    (hnopm : ∀ p ∈ db.project_managers, p.email ≠ e) :
    (verifyOtp db req now token true).response =
      ⟨404, .errorMsg "Project manager not found"⟩ ∧
    ∃ m ∈ db.otp_verifications,
      m.email = e ∧ m.otp_code = c ∧ m.verified = false ∧ now < m.expires_at ∧
      { m with verified := true } ∈
        (verifyOtp db req now token true).db.otp_verifications ∧
      (verifyOtp db req now token true).ops =
        [.selectOtp e c, .updateVerified m.id, .selectPm e] := by
  obtain ⟨m, hl⟩ := otpLookup_exists hmatch
  obtain ⟨hmmem, hme, hmc, hmv, hmex⟩ := otpLookup_some hl
  have hp : pmSingle db e = none := by
    rw [pmSingle, List.filter_eq_nil_iff.mpr]
    intro p hpmem
    simpa using hnopm p hpmem
  rw [verifyOtp_pm_none db req now token true e c m he he' hc hc' hl hp]
  exact ⟨rfl, m, hmmem, hme, hmc, hmv, hmex, mem_markVerified hmmem, rfl⟩

/-- C4 witness: a live OTP record for an email with no PM row. -/
theorem verify_otp_pm_missing_consumes_otp_witness :
    (verifyOtp ⟨[⟨1, "a@b", "123456", false, 100, 10⟩], []⟩
        ⟨some "a@b", some "123456"⟩ 50 "tok" true).response =
      ⟨404, .errorMsg "Project manager not found"⟩ ∧
    ∃ m ∈ ([⟨1, "a@b", "123456", false, 100, 10⟩] : List OtpRecord),
      m.email = "a@b" ∧ m.otp_code = "123456" ∧ m.verified = false ∧
      50 < m.expires_at ∧
      { m with verified := true } ∈
        (verifyOtp ⟨[⟨1, "a@b", "123456", false, 100, 10⟩], []⟩
          ⟨some "a@b", some "123456"⟩ 50 "tok" true).db.otp_verifications ∧
      (verifyOtp ⟨[⟨1, "a@b", "123456", false, 100, 10⟩], []⟩
          ⟨some "a@b", some "123456"⟩ 50 "tok" true).ops =
        [.selectOtp "a@b" "123456", .updateVerified m.id, .selectPm "a@b"] :=
  verify_otp_pm_missing_consumes_otp
    ⟨[⟨1, "a@b", "123456", false, 100, 10⟩], []⟩
    ⟨some "a@b", some "123456"⟩ 50 "tok" "a@b" "123456"
    rfl (by decide) rfl (by decide) (by decide) (by decide)

/-- C3 counterexample: the store holds two unverified, unexpired records
for `pm@x` — code "111" created at time 1 and code "222" created at
time 2.  Contrary to the claim that only the newest record is eligible
and older ones are unusable, submitting the older code "111" verifies:
the response is 200 and the older record is marked verified. -/
theorem verify_otp_older_code_verifies :
    (verifyOtp
        ⟨[⟨1, "pm@x", "111", false, 100, 1⟩, ⟨2, "pm@x", "222", false, 100, 2⟩],
          [⟨"p1", "Alice", "pm@x", none, none, true⟩]⟩
        ⟨some "pm@x", some "111"⟩ 50 "tok" true).response.status = 200 ∧
    (⟨1, "pm@x", "111", true, 100, 1⟩ : OtpRecord) ∈
      (verifyOtp
        ⟨[⟨1, "pm@x", "111", false, 100, 1⟩, ⟨2, "pm@x", "222", false, 100, 2⟩],
          [⟨"p1", "Alice", "pm@x", none, none, true⟩]⟩
        ⟨some "pm@x", some "111"⟩ 50 "tok" true).db.otp_verifications := by
  decide

/-- C3 (amended): the lookup filters on the submitted code, so newest-wins
selection applies only among records matching both the email and that
code: of those, a record with maximal `created_at` is the one consumed,
and every other stored record — older duplicates of the same code
included — is left unchanged by the request. -/
theorem verify_otp_newest_matching_code_consumed (db : Db)
    (req : VerifyRequest) (now : Nat) (token : String) (e c : String)
    (he : req.email = some e) (he' : e ≠ "")
    (hc : req.otp = some c) (hc' : c ≠ "")
    (hmatch : ∃ r ∈ db.otp_verifications,
      r.email = e ∧ r.otp_code = c ∧ r.verified = false ∧ now < r.expires_at) :
    ∃ m ∈ db.otp_verifications,
      m.email = e ∧ m.otp_code = c ∧ m.verified = false ∧ now < m.expires_at ∧
      otpLookup db e c now = some m ∧
      (∀ x ∈ db.otp_verifications,
        x.email = e → x.otp_code = c → x.verified = false →
          now < x.expires_at → x.created_at ≤ m.created_at) ∧
      ∀ x ∈ db.otp_verifications, x.id ≠ m.id →
        x ∈ (verifyOtp db req now token true).db.otp_verifications := by
  obtain ⟨m, hl⟩ := otpLookup_exists hmatch
  obtain ⟨hmmem, hme, hmc, hmv, hmex⟩ := otpLookup_some hl
  refine ⟨m, hmmem, hme, hmc, hmv, hmex, hl, otpLookup_max hl, ?_⟩
  intro x hx hid
  have hdb : (verifyOtp db req now token true).db = markVerified db m.id := by
    cases hp : pmSingle db e with
    | none =>
      rw [verifyOtp_pm_none db req now token true e c m he he' hc hc' hl hp]
      simp
    | some pm =>
      rw [verifyOtp_pm_some db req now token true e c m pm he he' hc hc' hl hp]
      simp
  rw [hdb]
  exact mem_markVerified_other m.id hx hid

/-- C3 (amended) witness: two live records with the same code; the newer
one (created at time 2) is selected and the older one survives
unchanged. -/
theorem verify_otp_newest_matching_code_consumed_witness :
    ∃ m ∈ ([⟨1, "pm@x", "111", false, 100, 1⟩,
        ⟨2, "pm@x", "111", false, 100, 2⟩] : List OtpRecord),
      m.email = "pm@x" ∧ m.otp_code = "111" ∧ m.verified = false ∧
      50 < m.expires_at ∧
      otpLookup
        ⟨[⟨1, "pm@x", "111", false, 100, 1⟩, ⟨2, "pm@x", "111", false, 100, 2⟩],
          []⟩ "pm@x" "111" 50 = some m ∧
      (∀ x ∈ ([⟨1, "pm@x", "111", false, 100, 1⟩,
          ⟨2, "pm@x", "111", false, 100, 2⟩] : List OtpRecord),
        x.email = "pm@x" → x.otp_code = "111" → x.verified = false →
          50 < x.expires_at → x.created_at ≤ m.created_at) ∧
      ∀ x ∈ ([⟨1, "pm@x", "111", false, 100, 1⟩,
          ⟨2, "pm@x", "111", false, 100, 2⟩] : List OtpRecord),
        x.id ≠ m.id →
          x ∈ (verifyOtp
            ⟨[⟨1, "pm@x", "111", false, 100, 1⟩,
                ⟨2, "pm@x", "111", false, 100, 2⟩], []⟩
            ⟨some "pm@x", some "111"⟩ 50 "tok" true).db.otp_verifications :=
  verify_otp_newest_matching_code_consumed
    ⟨[⟨1, "pm@x", "111", false, 100, 1⟩, ⟨2, "pm@x", "111", false, 100, 2⟩], []⟩
    ⟨some "pm@x", some "111"⟩ 50 "tok" "pm@x" "111"
    rfl (by decide) rfl (by decide) (by decide)

/-- C2 witness: a concrete store holding only an expired record for the
submitted email and code. -/
theorem verify_otp_invalid_or_expired_witness :
    verifyOtp ⟨[⟨1, "a@b", "111", false, 40, 1⟩], []⟩
        ⟨some "a@b", some "111"⟩ 50 "tok" true =
      ⟨⟨400, .errorMsg "Invalid or expired OTP"⟩,
        ⟨[⟨1, "a@b", "111", false, 40, 1⟩], []⟩,
        [.selectOtp "a@b" "111"]⟩ :=
  verify_otp_invalid_or_expired _ _ 50 "tok" true "a@b" "111"
    rfl (by decide) rfl (by decide) (by decide)

end PmVerifyOtp

namespace Analytics

lemma getKey_setKey_self (l : List (String × Nat)) (k : String) (v : Nat) :
    getKey (setKey l k v) k = v := by
  induction l with
  | nil => simp [setKey, getKey]
  | cons p rest ih =>
    obtain ⟨k', v'⟩ := p
    by_cases h : k' = k
    · simp [setKey, getKey, h]
    · simp [setKey, getKey, h, ih]

lemma getKey_setKey_other (l : List (String × Nat)) (k k' : String) (v : Nat)
    (h : k' ≠ k) : getKey (setKey l k v) k' = getKey l k' := by
  induction l with
  | nil => simp [setKey, getKey, Ne.symm h]
  | cons p rest ih =>
    obtain ⟨k0, v0⟩ := p
    by_cases h0 : k0 = k
    · subst h0
      simp [setKey, getKey, Ne.symm h]
    · by_cases h1 : k0 = k'
      · simp [setKey, getKey, h0, h1, h]
      · simp [setKey, getKey, h0, h1, ih]

lemma mem_map_fst_setKey {l : List (String × Nat)} {k k' : String} {v : Nat} :
    k' ∈ (setKey l k v).map Prod.fst ↔ k' ∈ l.map Prod.fst ∨ k' = k := by
  induction l with
  | nil => simp [setKey]
  | cons p rest ih =>
    obtain ⟨k0, v0⟩ := p
    by_cases h0 : k0 = k
    · subst h0
      simp [setKey]
      tauto
    · simp [setKey, h0, ih]
      tauto

lemma map_fst_setKey_mem {l : List (String × Nat)} {k : String} (v : Nat)
    (h : k ∈ l.map Prod.fst) :
    (setKey l k v).map Prod.fst = l.map Prod.fst := by
  induction l with
  | nil => simp at h
  | cons p rest ih =>
    obtain ⟨k0, v0⟩ := p
    by_cases h0 : k0 = k
    · simp [setKey, h0]
    · have : k ∈ rest.map Prod.fst := by
        rcases List.mem_map.mp h with ⟨q, hq, hqk⟩
        rcases List.mem_cons.mp hq with rfl | hq'
        · exact absurd hqk h0
        · exact List.mem_map.mpr ⟨q, hq', hqk⟩
      simp [setKey, h0, ih this]

lemma mem_of_getKey {l : List (String × Nat)} {k : String}
    (h : k ∈ l.map Prod.fst) : (k, getKey l k) ∈ l := by
  induction l with
  | nil => simp at h
  | cons p rest ih =>
    obtain ⟨k0, v0⟩ := p
    by_cases h0 : k0 = k
    · subst h0
      simp [getKey]
    · have : k ∈ rest.map Prod.fst := by
        rcases List.mem_map.mp h with ⟨q, hq, hqk⟩
        rcases List.mem_cons.mp hq with rfl | hq'
        · exact absurd hqk h0
        · exact List.mem_map.mpr ⟨q, hq', hqk⟩
      simp only [getKey, h0, if_false]
      exact List.mem_cons_of_mem _ (ih this)

lemma getKey_seed_aux (pms : List ProjectManager) :
    ∀ (acc : List (String × Nat)) (n : String),
      getKey (pms.foldl (fun acc pm => setKey acc pm.name 0) acc) n =
        if n ∈ pms.map ProjectManager.name then 0 else getKey acc n := by
  induction pms with
  | nil => intro acc n; simp
  | cons p ps ih =>
    intro acc n
    rw [List.foldl_cons, ih]
    by_cases hn : n ∈ ps.map ProjectManager.name
    · simp [hn]
    · by_cases hnp : n = p.name
      · simp [hn, hnp, getKey_setKey_self]
      · simp [hn, hnp, getKey_setKey_other _ _ _ _ hnp]

lemma mem_keys_seed_aux (pms : List ProjectManager) :
    ∀ (acc : List (String × Nat)) (n : String),
      n ∈ (pms.foldl (fun acc pm => setKey acc pm.name 0) acc).map Prod.fst ↔
        n ∈ acc.map Prod.fst ∨ n ∈ pms.map ProjectManager.name := by
  induction pms with
  | nil => intro acc n; simp
  | cons p ps ih =>
    intro acc n
    rw [List.foldl_cons, ih, mem_map_fst_setKey]
    simp
    tauto

lemma getKey_seedZero (pms : List ProjectManager) (n : String) :
    getKey (seedZero pms) n = 0 := by
  rw [seedZero, getKey_seed_aux]
  split <;> rfl

lemma mem_keys_seedZero (pms : List ProjectManager) (n : String) :
    n ∈ (seedZero pms).map Prod.fst ↔ n ∈ pms.map ProjectManager.name := by
  rw [seedZero, mem_keys_seed_aux]
  simp

lemma sumVals_bump (l : List (String × Nat)) (k : String) :
    sumVals (bump l k) = sumVals l + 1 := by
  induction l with
  | nil => rfl
  | cons p rest ih =>
    obtain ⟨k0, v0⟩ := p
    by_cases h : k0 = k
    · simp [bump, h, sumVals]
      omega
    · simp [bump, h, sumVals] at *
      omega

lemma sumVals_foldl_bump (key : ServiceRequest → String) :
    ∀ (reqs : List ServiceRequest) (acc : List (String × Nat)),
      sumVals (reqs.foldl (fun a r => bump a (key r)) acc) =
        sumVals acc + reqs.length := by
  intro reqs
  induction reqs with
  | nil => intro acc; simp
  | cons r rs ih =>
    intro acc
    rw [List.foldl_cons, ih, sumVals_bump]
    simp
    omega

lemma mem_firstSeen {k : String} {l : List String} :
    k ∈ firstSeen l ↔ k ∈ l := by
  induction l with
  | nil => simp [firstSeen]
  | cons x xs ih =>
    rw [firstSeen]
    by_cases hkx : k = x
    · subst hkx; simp
    · simp [hkx, List.mem_filter, ih]

lemma firstSeen_nodup (l : List String) : (firstSeen l).Nodup := by
  induction l with
  | nil => simp [firstSeen]
  | cons x xs ih =>
    rw [firstSeen]
    refine List.nodup_cons.mpr ⟨?_, ih.filter _⟩
    intro hx
    have := (List.mem_filter.mp hx).2
    simp at this

lemma firstSeen_append_singleton (l : List String) (k : String) :
    firstSeen (l ++ [k]) =
      if k ∈ l then firstSeen l else firstSeen l ++ [k] := by
  induction l with
  | nil => simp [firstSeen]
  | cons x xs ih =>
    rw [List.cons_append, firstSeen, ih]
    by_cases hk : k ∈ xs
    · simp [firstSeen, hk]
    · by_cases hkx : k = x
      · subst hkx
        simp [firstSeen, hk, List.filter_append]
      · simp [firstSeen, hk, hkx, List.filter_append]

lemma bump_not_mem {l : List (String × Nat)} {k : String}
    (h : k ∉ l.map Prod.fst) : bump l k = l ++ [(k, 1)] := by
  induction l with
  | nil => rfl
  | cons p rest ih =>
    obtain ⟨k0, v0⟩ := p
    simp only [List.map_cons, List.mem_cons] at h
    push_neg at h
    rw [bump, if_neg (Ne.symm h.1), ih h.2, List.cons_append]

lemma bump_map {l : List String} {f : String → Nat} {k : String}
    (hk : k ∈ l) (hnd : l.Nodup) :
    bump (l.map fun x => (x, f x)) k =
      l.map fun x => (x, if x = k then f x + 1 else f x) := by
  induction l with
  | nil => simp at hk
  | cons x xs ih =>
    rw [List.map_cons, List.map_cons, bump]
    by_cases hx : x = k
    · subst hx
      rw [if_pos rfl, if_pos rfl]
      have hxs : x ∉ xs := (List.nodup_cons.mp hnd).1
      congr 1
      apply List.map_congr_left
      intro y hy
      have hyx : ¬y = x := fun hh => hxs (hh ▸ hy)
      simp [hyx]
    · rw [if_neg hx, if_neg hx]
      have hkxs : k ∈ xs :=
        (List.mem_cons.mp hk).resolve_left (fun hh => hx hh.symm)
      rw [ih hkxs (List.nodup_cons.mp hnd).2]

lemma map_fst_pairs (l : List String) (f : String → Nat) :
    (l.map fun x => (x, f x)).map Prod.fst = l := by
  induction l <;> simp_all

lemma distByFirstAppearance_append (ks : List String) (k : String) :
    distByFirstAppearance (ks ++ [k]) =
      bump (distByFirstAppearance ks) k := by
  rw [distByFirstAppearance, distByFirstAppearance, firstSeen_append_singleton]
  by_cases hk : k ∈ ks
  · rw [if_pos hk, bump_map (mem_firstSeen.mpr hk) (firstSeen_nodup ks)]
    apply List.map_congr_left
    intro x hx
    by_cases hxk : x = k
    · subst hxk
      simp [List.count_append]
    · simp [List.count_append, hxk, List.count_singleton']
  · rw [if_neg hk, List.map_append, bump_not_mem]
    · congr 1
      · apply List.map_congr_left
        intro x hx
        have hxk : ¬k = x := fun hh => hk (hh ▸ mem_firstSeen.mp hx)
        simp [List.count_append, List.count_singleton', hxk]
      · simp [List.count_append, List.count_singleton',
          List.count_eq_zero_of_not_mem hk]
    · rw [map_fst_pairs]
      exact fun hh => hk (mem_firstSeen.mp hh)

lemma foldl_bump_eq_dist (ks : List String) :
    List.foldl bump [] ks = distByFirstAppearance ks := by
  induction ks using List.reverseRecOn with
  | nil => rfl
  | append_singleton l k ih =>
    rw [List.foldl_append, List.foldl_cons, List.foldl_nil, ih,
      distByFirstAppearance_append]

lemma statusDistribution_eq_ref (requests : List ServiceRequest) :
    statusDistribution requests =
      distByFirstAppearance (requests.map fun r => humanizeStatus r.status) := by
  rw [← foldl_bump_eq_dist, List.foldl_map]
  rfl

/-- C7: the status-distribution view is exactly the buckets of humanized
status labels in order of first appearance, each holding its number of
occurrences; on statuses `["pending", "pending", "completed"]` it is
`[("Pending", 2), ("Completed", 1)]`. -/
theorem status_distribution_first_appearance :
    (∀ requests : List ServiceRequest,
      statusDistribution requests =
        distByFirstAppearance (requests.map fun r => humanizeStatus r.status)) ∧
    statusDistribution
        [⟨"1", "a", "pending", "high", none, "d1", none⟩,
          ⟨"2", "b", "pending", "low", none, "d2", none⟩,
          ⟨"3", "c", "completed", "low", none, "d3", none⟩] =
      [("Pending", 2), ("Completed", 1)] :=
  ⟨statusDistribution_eq_ref, by decide⟩

/-- C10: the counts in the status-distribution view always total the
number of input requests — every request lands in exactly one bucket,
whatever its status string holds. -/
theorem status_distribution_total (requests : List ServiceRequest) :
    sumVals (statusDistribution requests) = requests.length := by
  simp only [statusDistribution]
  rw [sumVals_foldl_bump (fun r => humanizeStatus r.status) requests []]
  simp [sumVals]

/-- C9 counterexample: with an empty request list but one PM named "X",
the PM-workload view is the singleton zero bucket `[("X", 0)]`, not the
empty array the claim asserts for every project-manager list. -/
theorem pm_workload_seeded_nonempty_on_empty_requests :
    pmWorkload [] [⟨"1", "X", true⟩] = [("X", 0)] ∧
    ([("X", 0)] : List (String × Nat)) ≠ [] := by decide

/-- C9 (amended): on an empty request list the request-trend, status
distribution and popular-services views are empty, while the PM-workload
view is the zero seed — it holds `(pm.name, 0)` for every known PM, and
is empty exactly when the PM list is empty. -/
theorem empty_requests_views (dateKey : String → String)
    (pms : List ProjectManager) :
    requestTrends dateKey [] = [] ∧
    statusDistribution [] = [] ∧
    popularServices [] = [] ∧
    (pmWorkload [] pms = [] ↔ pms = []) ∧
    ∀ pm ∈ pms, (pm.name, 0) ∈ pmWorkload [] pms := by
  refine ⟨rfl, rfl, rfl, ⟨?_, ?_⟩, ?_⟩
  · intro h
    cases hp : pms with
    | nil => rfl
    | cons p ps =>
      exfalso
      have hs : seedZero pms = [] := h
      have hmem : p.name ∈ (seedZero pms).map Prod.fst := by
        rw [mem_keys_seedZero, hp]
        exact List.mem_map_of_mem _ (List.mem_cons_self p ps)
      rw [hs] at hmem
      simp at hmem
  · intro h; subst h; rfl
  · intro pm hpm
    have h2 : pm.name ∈ (seedZero pms).map Prod.fst :=
      (mem_keys_seedZero pms pm.name).mpr (List.mem_map_of_mem _ hpm)
    have h3 := mem_of_getKey h2
    rw [getKey_seedZero] at h3
    exact h3

/-- C9 (amended) witness: the views at an empty request list and one
concrete PM. -/
theorem empty_requests_views_witness :
    requestTrends (fun s => s) [] = [] ∧
    statusDistribution [] = [] ∧
    popularServices [] = [] ∧
    (pmWorkload [] [⟨"1", "X", true⟩] = [] ↔
      ([⟨"1", "X", true⟩] : List ProjectManager) = []) ∧
    ∀ pm ∈ ([⟨"1", "X", true⟩] : List ProjectManager),
      (pm.name, 0) ∈ pmWorkload [] [⟨"1", "X", true⟩] :=
  empty_requests_views (fun s => s) [⟨"1", "X", true⟩]

lemma map_fst_workloadStep (pms : List ProjectManager)
    (acc : List (String × Nat)) (r : ServiceRequest)
    (h : ∀ q ∈ pms, q.name ∈ acc.map Prod.fst) :
    (workloadStep pms acc r).map Prod.fst = acc.map Prod.fst := by
  simp only [workloadStep]
  cases hva : r.assigned_pm_id with
  | none => rfl
  | some pid =>
    show (if pid = "" then acc
      else
        match pms.find? (fun p => p.id == pid) with
        | none => acc
        | some pm => setKey acc pm.name (getKey acc pm.name + 1)).map
          Prod.fst = acc.map Prod.fst
    by_cases hpid : pid = ""
    · rw [if_pos hpid]
    · rw [if_neg hpid]
      cases hf : pms.find? (fun p => p.id == pid) with
      | none => rfl
      | some q =>
        exact map_fst_setKey_mem _ (h q (List.mem_of_find?_eq_some hf))

lemma getKey_workloadStep (pms : List ProjectManager)
    (acc : List (String × Nat)) (r : ServiceRequest)
    (hname : (pms.map ProjectManager.name).Nodup)
    (hid : (pms.map ProjectManager.id).Nodup)
    (hne : ∀ q ∈ pms, q.id ≠ "")
    (pm : ProjectManager) (hpm : pm ∈ pms) :
    getKey (workloadStep pms acc r) pm.name =
      getKey acc pm.name +
        (if r.assigned_pm_id == some pm.id then 1 else 0) := by
  simp only [workloadStep]
  cases hva : r.assigned_pm_id with
  | none => simp
  | some pid =>
    show getKey
        (if pid = "" then acc
          else
            match pms.find? (fun p => p.id == pid) with
            | none => acc
            | some q => setKey acc q.name (getKey acc q.name + 1))
        pm.name =
      getKey acc pm.name + if (some pid == some pm.id) then 1 else 0
    by_cases hpid : pid = ""
    · subst hpid
      rw [if_pos rfl]
      have hne' : "" ≠ pm.id := Ne.symm (hne pm hpm)
      simp [hne']
    · rw [if_neg hpid]
      cases hf : pms.find? (fun p => p.id == pid) with
      | none =>
        have hno : pm.id ≠ pid := by
          have := List.find?_eq_none.mp hf pm hpm
          simpa using this
        have : pid ≠ pm.id := Ne.symm hno
        simp [this]
      | some q =>
        have hqmem : q ∈ pms := List.mem_of_find?_eq_some hf
        have hqid : q.id = pid := by
          have := List.find?_some hf
          simpa using this
        by_cases hqpm : q = pm
        · subst hqpm
          show getKey (setKey acc q.name (getKey acc q.name + 1)) q.name =
            getKey acc q.name + if (some pid == some q.id) then 1 else 0
          rw [getKey_setKey_self, hqid]
          simp
        · have hqname : q.name ≠ pm.name := fun hh =>
            hqpm (List.inj_on_of_nodup_map hname hqmem hpm hh)
          have hpmid : pid ≠ pm.id := fun hh =>
            hqpm (List.inj_on_of_nodup_map hid hqmem hpm (hqid.trans hh))
          show getKey (setKey acc q.name (getKey acc q.name + 1)) pm.name =
            getKey acc pm.name + if (some pid == some pm.id) then 1 else 0
          rw [getKey_setKey_other _ _ _ _ (Ne.symm hqname)]
          simp [hpmid]

lemma map_fst_foldl_workload (pms : List ProjectManager) :
    ∀ (reqs : List ServiceRequest) (acc : List (String × Nat)),
      (∀ q ∈ pms, q.name ∈ acc.map Prod.fst) →
      (reqs.foldl (workloadStep pms) acc).map Prod.fst = acc.map Prod.fst := by
  intro reqs
  induction reqs with
  | nil => intro acc _; rfl
  | cons r rs ih =>
    intro acc h
    have h' : ∀ q ∈ pms, q.name ∈ (workloadStep pms acc r).map Prod.fst := by
      intro q hq
      rw [map_fst_workloadStep pms acc r h]
      exact h q hq
    rw [List.foldl_cons, ih _ h', map_fst_workloadStep pms acc r h]

lemma getKey_foldl_workload (pms : List ProjectManager)
    (hname : (pms.map ProjectManager.name).Nodup)
    (hid : (pms.map ProjectManager.id).Nodup)
    (hne : ∀ q ∈ pms, q.id ≠ "") :
    ∀ (reqs : List ServiceRequest) (acc : List (String × Nat)),
      (∀ q ∈ pms, q.name ∈ acc.map Prod.fst) →
      ∀ pm ∈ pms,
        getKey (reqs.foldl (workloadStep pms) acc) pm.name =
          getKey acc pm.name +
            (reqs.filter fun r => r.assigned_pm_id == some pm.id).length := by
  intro reqs
  induction reqs with
  | nil => intro acc _ pm _; simp
  | cons r rs ih =>
    intro acc hacc pm hpm
    have hacc' : ∀ q ∈ pms, q.name ∈ (workloadStep pms acc r).map Prod.fst := by
      intro q hq
      rw [map_fst_workloadStep pms acc r hacc]
      exact hacc q hq
    rw [List.foldl_cons, ih _ hacc' pm hpm,
      getKey_workloadStep pms acc r hname hid hne pm hpm, List.filter_cons]
    by_cases hr : r.assigned_pm_id == some pm.id
    · simp [hr]
      omega
    · simp [hr]

/-- C8 counterexample: two PMs share the name "X" (ids "1" and "2"); one
request is assigned to id "1".  The workload view collapses both PMs into
the single bucket `("X", 1)`, so the PM with id "2" — whose own assigned
count is 0 — has no entry carrying its count. -/
theorem pm_workload_shared_name_counterexample :
    (⟨"2", "X", true⟩ : ProjectManager) ∈
      ([⟨"1", "X", true⟩, ⟨"2", "X", true⟩] : List ProjectManager) ∧
    (([⟨"r1", "t", "pending", "p", none, "d", some "1"⟩] :
        List ServiceRequest).filter
      fun r => r.assigned_pm_id == some "2").length = 0 ∧
    ("X", 0) ∉
      pmWorkload [⟨"r1", "t", "pending", "p", none, "d", some "1"⟩]
        [⟨"1", "X", true⟩, ⟨"2", "X", true⟩] ∧
    pmWorkload [⟨"r1", "t", "pending", "p", none, "d", some "1"⟩]
        [⟨"1", "X", true⟩, ⟨"2", "X", true⟩] = [("X", 1)] := by
  decide

/-- C8 (amended): when the PMs carry pairwise-distinct names and
pairwise-distinct non-empty ids, the workload view holds, for every known
PM, the entry `(pm.name, n)` where `n` is the number of requests whose
`assigned_pm_id` equals that PM's id — zero included, so idle PMs
appear. -/
theorem pm_workload_per_pm_counts (requests : List ServiceRequest)
    (pms : List ProjectManager)
    (hname : (pms.map ProjectManager.name).Nodup)
    (hid : (pms.map ProjectManager.id).Nodup)
    (hne : ∀ q ∈ pms, q.id ≠ "") :
    ∀ pm ∈ pms,
      (pm.name,
        (requests.filter fun r => r.assigned_pm_id == some pm.id).length) ∈
        pmWorkload requests pms := by
  intro pm hpm
  have hseed : ∀ q ∈ pms, q.name ∈ (seedZero pms).map Prod.fst := by
    intro q hq
    exact (mem_keys_seedZero pms q.name).mpr (List.mem_map_of_mem _ hq)
  have h1 : getKey (pmWorkload requests pms) pm.name =
      getKey (seedZero pms) pm.name +
        (requests.filter fun r => r.assigned_pm_id == some pm.id).length := by
    simp only [pmWorkload]
    exact getKey_foldl_workload pms hname hid hne requests (seedZero pms)
      hseed pm hpm
  rw [getKey_seedZero, Nat.zero_add] at h1
  have h2 : pm.name ∈ (pmWorkload requests pms).map Prod.fst := by
    simp only [pmWorkload]
    rw [map_fst_foldl_workload pms requests (seedZero pms) hseed]
    exact hseed pm hpm
  have h3 := mem_of_getKey h2
  rw [h1] at h3
  exact h3

/-- C8 (amended) witness: two distinct PMs, one request assigned to the
first; the idle second PM appears with count zero. -/
theorem pm_workload_per_pm_counts_witness :
    ("Y", 0) ∈
      pmWorkload [⟨"r1", "t", "pending", "p", none, "d", some "1"⟩]
        [⟨"1", "X", true⟩, ⟨"2", "Y", true⟩] :=
  pm_workload_per_pm_counts
    [⟨"r1", "t", "pending", "p", none, "d", some "1"⟩]
    [⟨"1", "X", true⟩, ⟨"2", "Y", true⟩]
    (by decide) (by decide) (by decide)
    ⟨"2", "Y", true⟩ (by decide)

end Analytics
